import Mathlib

/-!
# Verification of the interactive configuration-wizard engine
(`hummingbot/client/command/create_command.py`)

This file gives a shallow embedding of the `CreateCommand` class: the
session controller (`create`, `prompt_for_configuration`), the structured
model engine (`prompt_for_model_config`, `prompt_a_config`), the legacy
flat-map engine (`prompt_for_configuration_legacy`, `prompt_a_config_legacy`),
file-name resolution (`prompt_new_file_name`, `save_config_to_file`),
the readiness check (`verify_status`) and the cancellation/rollback
manager (`stop_config`, `restore_config_legacy`).

Modelling conventions:
* The interactive front end is modelled by a stream of input events.  A
  `.line s` event is the operator submitting the text `s`; a `.cancel`
  event models the operator interrupting the pending prompt: it sets the
  shared `to_stop_config` flag and the suspended `prompt` call resolves
  with the current contents of the input buffer (the text most recently
  prefilled with `set_text`), which is how the real front end behaves.
* Every `async` routine is a function from state to a result `Res α`:
  `.ok a st` (the coroutine returned `a`), `.exn e st` (an exception
  propagates, carrying the side effects performed so far), or `.blocked`
  (the coroutine is suspended forever waiting for operator input that
  never arrives).  A `fuel` parameter bounds the retry/nesting recursion
  of the source (which is unbounded by design); exhausting fuel yields
  `.blocked`, i.e. theorems about terminating runs supply enough fuel.
* External collaborators (the schema catalogue, `format_config_file_name`,
  template paths, the readiness probe, the secret store) are fields of an
  `Env` record, exactly as the spec declares them out of scope.
* Python's in-place mutation of models and maps is translated to explicit
  value passing: each routine returns the updated model/map.
-/

namespace CreateCommand

/-- Client-side metadata of one structured-model field
(`prompt_on_new`, `is_secure` of pydantic `ClientFieldData`). -/
structure ClientData where
  promptOnNew : Bool
  isSecure : Bool
deriving DecidableEq, Repr

mutual
/-- The value stored in a structured-model field: a scalar (possibly unset)
or a nested client model (`BaseClientModel`). -/
inductive CValue where
  | scalar : Option String → CValue
  | model : ClientModel → CValue

/-- Result of pydantic attribute assignment `model.__setattr__`: the
validated/coerced new value, or a `ValidationError` message. -/
inductive SetResult where
  | okv : CValue → SetResult
  | err : String → SetResult

/-- One declared field of a structured model: name, pydantic `required`
flag, optional client data, the prompt text returned by
`get_client_prompt` (none means "no interactive prompt"), the
validating assignment function, and the current value. -/
inductive CField where
  | mk : String → Bool → Option ClientData → Option String →
      (String → SetResult) → CValue → CField

/-- A structured configuration model (`BaseClientModel`): an ordered list
of declared fields. -/
inductive ClientModel where
  | mk : List CField → ClientModel
end

def CField.name : CField → String
  | .mk n _ _ _ _ _ => n

def CField.required : CField → Bool
  | .mk _ r _ _ _ _ => r

def CField.clientData : CField → Option ClientData
  | .mk _ _ cd _ _ _ => cd

def CField.promptText : CField → Option String
  | .mk _ _ _ p _ _ => p

def CField.setv : CField → String → SetResult
  | .mk _ _ _ _ s _ => s

def CField.value : CField → CValue
  | .mk _ _ _ _ _ v => v

/-- Replace the value of a field, keeping all metadata. -/
def CField.withValue : CField → CValue → CField
  | .mk n r cd p s _, v => .mk n r cd p s v

def ClientModel.fieldList : ClientModel → List CField
  | .mk fs => fs

/-- Attribute access (Python `getattr`) for a declared field. -/
def ClientModel.getField (m : ClientModel) (c : String) : Option CField :=
  m.fieldList.find? (fun f => f.name == c)

/-- Update the (first) field named `c` in place, as Python attribute
assignment does. -/
def setFirstField : List CField → String → CValue → List CField
  | [], _, _ => []
  | f :: rest, c, v =>
    if f.name == c then f.withValue v :: rest else f :: setFirstField rest c v

def ClientModel.setFieldValue (m : ClientModel) (c : String) (v : CValue) : ClientModel :=
  .mk (setFirstField m.fieldList c v)

/-- Read a scalar attribute (used for `strategy_config.strategy`). -/
def ClientModel.getStrAttr (m : ClientModel) (c : String) : Option String :=
  match m.getField c with
  | some f =>
    match f.value with
    | .scalar o => o
    | .model _ => none
  | none => none

/-- A legacy field descriptor (`ConfigVar`): key, working value, default,
`required`, `prompt_on_new`, `is_secure`, its prompt text (`get_prompt`),
its validator (`validate`, returning an error message on failure) and the
value parser (`parse_cvar_value`). -/
structure ConfigVar where
  key : String
  value : Option String
  default : Option String
  required : Bool
  prompt_on_new : Bool
  is_secure : Bool
  prompt : String
  validate : String → Option String
  parse : String → Option String

/-- A legacy flat map: an insertion-ordered mapping key ↦ `ConfigVar`. -/
abbrev LMap := List (String × ConfigVar)

/-- A strategy schema as returned by the catalogue: a structured model
(`BaseStrategyConfigMap`) or a legacy flat map. -/
inductive Schema where
  | structured : ClientModel → Schema
  | legacy : LMap → Schema

/-- One operator input event: a submitted line, or an interrupt that sets
`to_stop_config` while the pending prompt resolves with the input
buffer's current text. -/
inductive InEvent where
  | line : String → InEvent
  | cancel
deriving DecidableEq, Repr

/-- Observable calls to external persistence/lookup collaborators, kept as
an event log for the temporal claims. -/
inductive Ev where
  | schemaLookup : Option String → Ev
  | savedYml : String → Ev
  | savedYmlLegacy : String → Ev
  | copiedTemplate : String → Ev
  | readiness : Ev
deriving DecidableEq, Repr

def Ev.isSavedYml : Ev → Bool
  | .savedYml _ => true
  | _ => false

def Ev.isSavedYmlLegacy : Ev → Bool
  | .savedYmlLegacy _ => true
  | _ => false

/-- The interactive front end's state (`self.app`): pending input events,
the shared cancellation flag `to_stop_config`, notifications issued so
far, the input buffer text (`set_text`), the prompt string
(`change_prompt`), the `hide_input` flag and a counter of completer
reloads. -/
structure FrontSt where
  inputs : List InEvent
  toStop : Bool
  notifs : List String
  text : String
  promptStr : String
  hideInput : Bool
  completerReloads : Nat

/-- The whole session state: front end, the configuration directory's
files, the external-call event log, `required_exchanges`,
`placeholder_mode`, and the four session attributes the command writes
(`strategy_file_name`, `strategy_name`, `strategy_config_map`,
`strategy_config`). -/
structure St where
  front : FrontSt
  placeholderMode : Bool
  files : List String
  events : List Ev
  requiredExchanges : List String
  strategyFileName : Option String
  strategyName : Option String
  strategyConfigMap : Option Schema
  strategyConfig : Option Schema

def St.notify (st : St) (msg : String) : St :=
  { st with front := { st.front with notifs := st.front.notifs ++ [msg] } }

def St.setText (st : St) (s : String) : St :=
  { st with front := { st.front with text := s } }

def St.clearInput (st : St) : St := st.setText ""

def St.changePrompt (st : St) (s : String) : St :=
  { st with front := { st.front with promptStr := s } }

def St.setHideInput (st : St) (b : Bool) : St :=
  { st with front := { st.front with hideInput := b } }

def St.setToStop (st : St) (b : Bool) : St :=
  { st with front := { st.front with toStop := b } }

def St.setPlaceholder (st : St) (b : Bool) : St :=
  { st with placeholderMode := b }

def St.logEvent (st : St) (e : Ev) : St :=
  { st with events := st.events ++ [e] }

def St.reloadCompleter (st : St) : St :=
  { st with front := { st.front with completerReloads := st.front.completerReloads + 1 } }

def St.addFile (st : St) (p : String) : St :=
  { st with files := st.files ++ [p] }

/-- Model of `await self.app.prompt(...)`: consume the next input event.  An empty
stream means the coroutine suspends forever (`none`).  A `.cancel` event
sets `to_stop_config` and resolves with the buffer text. -/
def FrontSt.readInput : FrontSt → Option (String × FrontSt)
  | fs =>
    match fs.inputs with
    | [] => none
    | .line s :: rest => some (s, { fs with inputs := rest })
    | .cancel :: rest => some (fs.text, { fs with inputs := rest, toStop := true })

/-- The external collaborators (spec section 6), out of scope of this
core: path constants, `format_config_file_name`,
`default_strategy_file_path`, `get_strategy_template_path`, the schema
catalogue, the synthetic strategy-selection model
(`BaseStrategyConfigMap.construct()`), `parse_config_default_to_text`,
the strategy-owned inventory-price prompt sequence, and the readiness
probe's outcome under the configured timeout (`none` = the aggregate
check exceeded the timeout and `asyncio.wait_for` raises
`TimeoutError`). -/
structure Env where
  confPath : String
  format : String → String
  defaultStrategyFilePath : String → String
  templatePath : String → String
  getStrategyConfigMap : Option String → Option Schema
  baseStrategyConfigMap : ClientModel
  parseDefaultText : ConfigVar → String
  inventoryPricePrompt : Option String → FrontSt → Option FrontSt
  statusCheckOutcome : Option Bool

/-- Path join (`os.path.join`) for the paths this command builds. -/
def pathJoin (a b : String) : String := a ++ "/" ++ b

/-- Exceptions that can escape a routine. -/
inductive Exn where
  | timeoutError
  | runtimeError
deriving DecidableEq, Repr

/-- Result of running one `async` routine: normal return with the updated
state, an escaping exception, or suspension forever on operator input. -/
inductive Res (α : Type) where
  | ok : α → St → Res α
  | exn : Exn → St → Res α
  | blocked : Res α

def Res.finalSt {α : Type} : Res α → Option St
  | .ok _ st => some st
  | .exn _ st => some st
  | .blocked => none

/-- Translation of `config.split(".")`: structurally recursive so that
concrete runs evaluate.  Same behavior as Python `str.split` with a
one-character separator. -/
def splitPathAux : List Char → List Char → List String
  | [], acc => [String.mk acc.reverse]
  | c :: rest, acc =>
    if c = '.' then String.mk acc.reverse :: splitPathAux rest []
    else splitPathAux rest (c :: acc)

def splitPath (s : String) : List String := splitPathAux s.data []

/-- The visit condition of `prompt_for_model_config`:
`client_data is not None and (client_data.prompt_on_new and field.required)`. -/
def promptRequired (f : CField) : Bool :=
  match f.clientData with
  | some cd => cd.promptOnNew && f.required
  | none => false

/-- The keys `prompt_for_model_config` is supposed to visit, in
declaration order. -/
def promptRequiredKeys (m : ClientModel) : List String :=
  (m.fieldList.filter promptRequired).map CField.name

mutual

/-- Body of `CreateCommand.prompt_a_config` after the dotted path has been split:
descend through intermediate sub-models to the owner of the leaf field
(`while len(config_path) != 1`), then run the single-field prompt.  The
write-back of the updated sub-model translates Python's in-place
mutation. -/
def promptPath (fuel : Nat) (env : Env) (model : ClientModel)
    (path : List String) (inputValue : Option String) (st : St) : Res ClientModel :=
  match path with
  | [] => .exn .runtimeError st
  | [c] =>
    -- leaf: `if input_value is None: fetch prompt; if prompt is not None: read`
    (match inputValue with
     | some s => promptLeafCont fuel env model c (some s) st
     | none =>
       match model.getField c with
       | none => .exn .runtimeError st
       | some f =>
         match f.promptText with
         | none => promptLeafCont fuel env model c none st
         | some _p =>
           match f.clientData with
           | none => .exn .runtimeError st
           | some _cd =>
             match st.front.readInput with
             | none => .blocked
             | some (s, fr) => promptLeafCont fuel env model c (some s) { st with front := fr })
  | seg :: rest =>
    match model.getField seg with
    | some f =>
      match f.value with
      | .model sub =>
        (match promptPath fuel env sub rest inputValue st with
         | .ok sub' st' => .ok (model.setFieldValue seg (.model sub')) st'
         | .exn e st' => .exn e st'
         | .blocked => .blocked)
      | .scalar _ => .exn .runtimeError st
    | none => .exn .runtimeError st
termination_by (fuel, 1, path.length)

/-- Lines 177–188 of `prompt_a_config`: with the input in hand, attempt the
validating assignment; on `ValidationError` notify and retry the same
field with no preset (the recursive call's Python return value is `None`,
so the outer frame performs no nested-model recursion of its own); on
success, if the new value is itself a client model, recurse into
`prompt_for_model_config` on it before returning. -/
def promptLeafCont (fuel : Nat) (env : Env) (model : ClientModel)
    (c : String) (inputValue : Option String) (st : St) : Res ClientModel :=
  match st.front.toStop, inputValue with
  | false, some s =>
    (match model.getField c with
     | none => .exn .runtimeError st
     | some f =>
       match f.setv s with
       | .err msg =>
         (match fuel with
          | 0 => .blocked
          | f' + 1 => promptPath f' env model (splitPath c) none (st.notify msg))
       | .okv v =>
         let model2 := model.setFieldValue c v
         match v with
         | .model sub =>
           (match fuel with
            | 0 => .blocked
            | f' + 1 =>
              match prompt_for_model_config f' env sub st with
              | .ok sub' st' => .ok (model2.setFieldValue c (.model sub')) st'
              | .exn e st' => .exn e st'
              | .blocked => .blocked)
         | .scalar _ => .ok model2 st)
  | _, _ => .ok model st
termination_by (fuel, 0, 0)

/-- Loop of `CreateCommand.prompt_for_model_config`: iterate the declared fields in
order; prompt those with client data that are required and
prompt-on-new; break as soon as `to_stop_config` is observed after a
visit. -/
def promptLoop (fuel : Nat) (env : Env) (fields : List CField)
    (m : ClientModel) (st : St) : Res ClientModel :=
  match fields with
  | [] => .ok m st
  | f :: rest =>
    if promptRequired f then
      match promptPath fuel env m (splitPath f.name) none st with
      | .ok m' st' =>
        if st'.front.toStop then .ok m' st' else promptLoop fuel env rest m' st'
      | .exn e st' => .exn e st'
      | .blocked => .blocked
    else promptLoop fuel env rest m st
termination_by (fuel, 2, fields.length)

def prompt_for_model_config (fuel : Nat) (env : Env) (m : ClientModel) (st : St) :
    Res ClientModel :=
  promptLoop fuel env m.fieldList m st
termination_by (fuel, 3, 0)

end

/-- Translation of `CreateCommand.prompt_a_config`: split the dotted path and process it. -/
def prompt_a_config (fuel : Nat) (env : Env) (model : ClientModel)
    (config : String) (inputValue : Option String) (st : St) : Res ClientModel :=
  promptPath fuel env model (splitPath config) inputValue st

/-- Modelled from the spec: the `inventory_price` key is special-cased to
a dedicated multi-step prompt sequence owned by the strategy itself
(`inventory_price_prompt_legacy`, outside this file), bypassing the
generic single-field path; it interacts with the front end only. -/
def inventoryPriceBranch (env : Env) (cv : ConfigVar)
    (inputValue : Option String) (st : St) : Res ConfigVar :=
  match env.inventoryPricePrompt inputValue st.front with
  | none => .blocked
  | some fr => .ok cv { st with front := fr }

mutual

/-- Translation of `CreateCommand.prompt_a_config_legacy`: the
single-field legacy routine.  The `inventory_price` key is special-cased
to the strategy-owned prompt sequence; otherwise obtain an input
(prefilling the default text when `assign_default`) and hand it to the
validation step `legacyAfterInput`. -/
def prompt_a_config_legacy (fuel : Nat) (env : Env) (cv : ConfigVar)
    (inputValue : Option String) (assignDefault : Bool) (st : St) : Res ConfigVar :=
  if cv.key = "inventory_price" then inventoryPriceBranch env cv inputValue st
  else
    match inputValue with
    | some s => legacyAfterInput fuel env cv s st
    | none =>
      let st1 := if assignDefault then st.setText (env.parseDefaultText cv) else st
      match st1.front.readInput with
      | none => .blocked
      | some (s, fr) => legacyAfterInput fuel env cv s { st1 with front := fr }
termination_by (fuel, 1)

/-- Lines 205–213 of `prompt_a_config_legacy`: give up if cancellation was
signaled while suspended, then validate: on failure notify and retry
with no preset, on success commit the parsed value. -/
def legacyAfterInput (fuel : Nat) (env : Env) (cv : ConfigVar) (s : String)
    (st : St) : Res ConfigVar :=
  if st.front.toStop then .ok cv st
  else
    match cv.validate s with
    | some err =>
      (match fuel with
       | 0 => .blocked
       | f' + 1 => prompt_a_config_legacy f' env cv none true (st.notify err))
    | none => .ok { cv with value := cv.parse s } st
termination_by (fuel, 0)

end

/-- First pass of `prompt_for_configuration_legacy`: required fields get
their default as working value, non-required fields are reset to none. -/
def legacyPass1 (m : LMap) : LMap :=
  m.map fun p =>
    (p.1, { p.2 with value := if p.2.required then p.2.default else none })

/-- Second pass of `prompt_for_configuration_legacy`: in map order, prompt
the fields that are prompt-on-new and required (breaking out of the loop
once `to_stop_config` holds), and assign the default to all others. -/
def legacyPass2 (fuel : Nat) (env : Env) : LMap → St → Res LMap
  | [], st => .ok [] st
  | (k, cv) :: rest, st =>
    if cv.prompt_on_new && cv.required then
      if st.front.toStop then .ok ((k, cv) :: rest) st
      else
        match prompt_a_config_legacy fuel env cv none true st with
        | .ok cv' st' =>
          (match legacyPass2 fuel env rest st' with
           | .ok rest' st'' => .ok ((k, cv') :: rest') st''
           | .exn e st'' => .exn e st''
           | .blocked => .blocked)
        | .exn e st' => .exn e st'
        | .blocked => .blocked
    else
      let cv' := { cv with value := cv.default }
      match legacyPass2 fuel env rest st with
      | .ok rest' st' => .ok ((k, cv') :: rest') st'
      | .exn e st' => .exn e st'
      | .blocked => .blocked

/-- Translation of `CreateCommand.restore_config_legacy`: replace every key's descriptor
with the backup's (a missing backup key would be a Python `KeyError`,
hence the `Option`). -/
def restore_config_legacy : LMap → LMap → Option LMap
  | [], _ => some []
  | (k, _) :: rest, b =>
    match b.lookup k, restore_config_legacy rest b with
    | some cv, some rest' => some ((k, cv) :: rest')
    | _, _ => none

/-- Translation of `CreateCommand.stop_config` with no maps: absorb the cancellation by
clearing the flag. -/
def stop_config (st : St) : St := st.setToStop false

/-- Translation of `CreateCommand.prompt_new_file_name`: prefill the default file name,
read and format an input; an empty result or a name whose target path
already exists notifies the operator and re-prompts. -/
def prompt_new_file_name (fuel : Nat) (env : Env) (strategy : String) (st : St) :
    Res String :=
  let st1 := st.setText (env.defaultStrategyFilePath strategy)
  match st1.front.readInput with
  | none => .blocked
  | some (inpRaw, fr) =>
    let st2 : St := { st1 with front := fr }
    let inp := env.format inpRaw
    let filePath := pathJoin env.confPath inp
    if inp = "" then
      match fuel with
      | 0 => .blocked
      | f' + 1 => prompt_new_file_name f' env strategy (st2.notify "Value is required.")
    else if st2.files.contains filePath then
      match fuel with
      | 0 => .blocked
      | f' + 1 =>
        prompt_new_file_name f' env strategy
          (st2.notify (inp ++ " file already exists, please enter a new name."))
    else .ok inp st2

/-- Translation of `CreateCommand.verify_status`: run the aggregate readiness probe under
the configured timeout.  Timeout: notify of a network failure, clear
`strategy_file_name`, `strategy_name` and `strategy_config` and re-raise.
Within the timeout: advise to start only when the aggregate result is
true. -/
def verify_status (env : Env) (st : St) : Res Unit :=
  let st1 := st.logEvent .readiness
  match env.statusCheckOutcome with
  | none =>
    let st2 := st1.notify
      "\nA network error prevented the connection check to complete. See logs for more details."
    .exn .timeoutError
      { st2 with strategyFileName := none, strategyName := none, strategyConfig := none }
  | some true => .ok () (st1.notify "\nEnter \"start\" to start market making.")
  | some false => .ok () st1

/-- Lines 143–157 of `prompt_for_configuration_legacy`: the success tail
after a file name has been resolved — reset the prompt, copy the
strategy template, persist the map, expose the session bindings, reload
the completer, notify, leave placeholder/hidden-input mode and run the
readiness check. -/
def finishLegacy (env : Env) (strategy fn : String) (m2 : LMap) (st : St) : Res LMap :=
  let st1 := st.changePrompt ">>> "
  let spath := pathJoin env.confPath fn
  let st2 := (st1.addFile spath).logEvent (.copiedTemplate spath)
  let st3 := st2.logEvent (.savedYmlLegacy spath)
  let st4 : St :=
    { st3 with strategyFileName := some fn, strategyName := some strategy,
               strategyConfig := none }
  let st5 := (st4.reloadCompleter.notify
    ("A new config file " ++ fn ++ " created.")).setPlaceholder false |>.setHideInput false
  match verify_status env st5 with
  | .ok _ st6 => .ok m2 st6
  | .exn e st6 => .exn e st6
  | .blocked => .blocked

/-- Translation of `CreateCommand.prompt_for_configuration_legacy`: deep-copy backup, the
two assignment/prompt passes, rollback on cancellation (restoring every
key from the backup), then file-name resolution (new sessions only) and
the persistence/readiness tail. -/
def prompt_for_configuration_legacy (fuel : Nat) (env : Env)
    (fileName : Option String) (strategy : String) (config_map : LMap) (st : St) :
    Res LMap :=
  let backup := config_map
  let m1 := legacyPass1 config_map
  match legacyPass2 fuel env m1 st with
  | .ok m2 st1 =>
    if st1.front.toStop then
      match restore_config_legacy m2 backup with
      | some m3 => .ok m3 (stop_config st1)
      | none => .exn .runtimeError st1
    else
      match fileName with
      | none =>
        (match prompt_new_file_name fuel env strategy st1 with
         | .ok fn st2 =>
           if st2.front.toStop then
             match restore_config_legacy m2 backup with
             | some m3 => .ok m3 ((stop_config st2).setText "")
             | none => .exn .runtimeError st2
           else finishLegacy env strategy fn m2 st2
         | .exn e st2 => .exn e st2
         | .blocked => .blocked)
      | some fn => finishLegacy env strategy fn m2 st1
  | .exn e st1 => .exn e st1
  | .blocked => .blocked

/-- Translation of `CreateCommand.save_config_to_file`: resolve a file name if none was
preset (absorbing a cancellation signaled there by clearing the flag,
blanking the input text and returning `None`), then persist the
structured map. -/
def save_config_to_file (fuel : Nat) (env : Env) (fileName : Option String)
    (config_map : ClientModel) (st : St) : Res (Option String) :=
  match fileName with
  | none =>
    (match config_map.getStrAttr "strategy" with
     | none => .exn .runtimeError st
     | some strategy =>
       match prompt_new_file_name fuel env strategy st with
       | .ok fn st1 =>
         if st1.front.toStop then .ok none ((stop_config st1).setText "")
         else
           let st2 := st1.changePrompt ">>> "
           let spath := pathJoin env.confPath fn
           .ok (some fn) ((st2.addFile spath).logEvent (.savedYml spath))
       | .exn e st1 => .exn e st1
       | .blocked => .blocked)
  | some fn =>
    let st2 := st.changePrompt ">>> "
    let spath := pathJoin env.confPath fn
    .ok (some fn) ((st2.addFile spath).logEvent (.savedYml spath))

/-- Translation of `CreateCommand.get_strategy_name`: run the synthetic one-field
strategy-selection model through the structured engine; on cancellation
absorb it via `stop_config` and return `None`, otherwise read the chosen
strategy. -/
def get_strategy_name (fuel : Nat) (env : Env) (st : St) : Res (Option String) :=
  match prompt_for_model_config fuel env env.baseStrategyConfigMap st with
  | .ok m' st1 =>
    if st1.front.toStop then .ok none (stop_config st1)
    else .ok (m'.getStrAttr "strategy") st1
  | .exn e st1 => .exn e st1
  | .blocked => .blocked

/-- The docs pointer notified after the schema lookup (line 59). -/
def docsMsg (s : String) : String :=
  "Please see https://docs.hummingbot.io/strategies/" ++ s.replace "_" "-" ++
    "/ while setting up these below configuration."

/-- Translation of `CreateCommand.prompt_for_configuration`: the session controller.
Note that the `to_stop_config` test after the legacy/None schema branches
always fires there (both force the flag), so those branches are
translated with the controller's stop inlined; the structured branch
keeps the live test. -/
def prompt_for_configuration (fuel : Nat) (env : Env) (fileName : Option String)
    (st : St) : Res Unit :=
  let st1 :=
    ((st.clearInput.setPlaceholder true).setHideInput true)
    |> fun s => { s with requiredExchanges := [] }
  match get_strategy_name fuel env st1 with
  | .ok strategy st2 =>
    if st2.front.toStop then .ok () (stop_config st2)
    else
      let configMap := env.getStrategyConfigMap strategy
      let st3 := st2.logEvent (.schemaLookup strategy)
      match strategy with
      | none => .exn .runtimeError st3   -- `strategy.replace` on None: AttributeError
      | some sname =>
        let st4 := st3.notify (docsMsg sname)
        match configMap with
        | some (.structured m) =>
          (match prompt_for_model_config fuel env m st4 with
           | .ok m' st5 =>
             if st5.front.toStop then .ok () (stop_config st5)
             else
               (match save_config_to_file fuel env fileName m' st5 with
                | .ok fnOpt st6 =>
                  let st7 : St :=
                    { st6 with strategyFileName := fnOpt, strategyName := some sname,
                               strategyConfigMap := some (.structured m') }
                  let st8 := (st7.reloadCompleter.setPlaceholder false).setHideInput false
                  verify_status env st8
                | .exn e st6 => .exn e st6
                | .blocked => .blocked)
           | .exn e st5 => .exn e st5
           | .blocked => .blocked)
        | some (.legacy l) =>
          (match prompt_for_configuration_legacy fuel env fileName sname l st4 with
           | .ok _m' st5 => .ok () (stop_config (st5.setToStop true))
           | .exn e st5 => .exn e st5
           | .blocked => .blocked)
        | none => .ok () (stop_config (st4.setToStop true))
  | .exn e st2 => .exn e st2
  | .blocked => .blocked

/-- Translation of `CreateCommand.create`: the public entry point.  A preset file name is
formatted; if the formatted name already exists in the configuration
directory, notify and return without starting a session; otherwise run
`prompt_for_configuration` (scheduled with `safe_ensure_future` in the
source; sequential here, matching the single-threaded cooperative
model). -/
def create (fuel : Nat) (env : Env) (fileName : Option String) (st : St) : Res Unit :=
  match fileName with
  | some n =>
    let fn := env.format n
    if st.files.contains (pathJoin env.confPath fn) then
      .ok () (st.notify (fn ++ " already exists."))
    else prompt_for_configuration fuel env (some fn) st
  | none => prompt_for_configuration fuel env none st

/-- Reference loop for claim C3: visit exactly the given keys, in order,
through the single-field routine, stopping as soon as a visit leaves the
cancellation flag set. -/
def promptFiltered (fuel : Nat) (env : Env) : List String → ClientModel → St →
    Res ClientModel
  | [], m, st => .ok m st
  | k :: rest, m, st =>
    match promptPath fuel env m (splitPath k) none st with
    | .ok m' st' =>
      if st'.front.toStop then .ok m' st' else promptFiltered fuel env rest m' st'
    | .exn e st' => .exn e st'
    | .blocked => .blocked

/-! ## Verification infrastructure -/

/-- The non-interactive part of the session state: everything except the
front end.  The structured and legacy prompting routines only touch the
front end; this projection makes that invariant easy to state. -/
structure Core where
  placeholderMode : Bool
  files : List String
  events : List Ev
  requiredExchanges : List String
  strategyFileName : Option String
  strategyName : Option String
  strategyConfigMap : Option Schema
  strategyConfig : Option Schema

def St.core (st : St) : Core :=
  ⟨st.placeholderMode, st.files, st.events, st.requiredExchanges,
   st.strategyFileName, st.strategyName, st.strategyConfigMap, st.strategyConfig⟩

/-- A routine result preserves the core of the state it started from. -/
def Res.coreEq {α : Type} (r : Res α) (st : St) : Prop :=
  match r with
  | .ok _ st' => st'.core = st.core
  | .exn _ st' => st'.core = st.core
  | .blocked => True

@[simp] theorem core_notify (st : St) (m : String) : (st.notify m).core = st.core := rfl

@[simp] theorem core_setText (st : St) (s : String) : (st.setText s).core = st.core := rfl

@[simp] theorem core_setToStop (st : St) (b : Bool) : (st.setToStop b).core = st.core := rfl

@[simp] theorem core_withFront (st : St) (fr : FrontSt) :
    ({ st with front := fr } : St).core = st.core := rfl

theorem Res.coreEq_trans {α : Type} {r : Res α} {st1 st2 : St}
    (h : r.coreEq st1) (h2 : st1.core = st2.core) : r.coreEq st2 := by
  cases r <;> simp [Res.coreEq] at h ⊢ <;> exact h.trans h2

/-! ## Concrete fixtures for witnesses and counterexamples -/

/-- A baseline front end: no pending input, flag clear, nothing notified. -/
def frW : FrontSt := ⟨[], false, [], "", "", false, 0⟩

/-- Front end with a given input stream. -/
def frIn (evs : List InEvent) : FrontSt := ⟨evs, false, [], "", "", false, 0⟩

/-- Session state with a given front end and given files on disk. -/
def stOf (fr : FrontSt) (files : List String) : St :=
  ⟨fr, false, files, [], [], none, none, none, none⟩

/-- The synthetic strategy-selection model (one required, prompt-on-new
`strategy` field whose assignment accepts any input). -/
def strategySelModel : ClientModel :=
  .mk [.mk "strategy" true (some ⟨true, false⟩)
        (some "What is your market making strategy?")
        (fun s => .okv (.scalar (some s))) (.scalar none)]

/-- A structured strategy schema fixture: it carries the chosen strategy
in a non-prompted `strategy` field (no client data, so the engine skips
it). -/
def schemaModelOf (s : String) : ClientModel :=
  .mk [.mk "strategy" false none none
        (fun i => .okv (.scalar (some i))) (.scalar (some s))]

/-- A baseline environment for concrete runs: identity file-name
formatting, `<strategy>.yml` default names, an empty catalogue, and a
readiness check that succeeds. -/
def envW : Env :=
  { confPath := "conf"
    format := fun s => s
    defaultStrategyFilePath := fun s => s ++ ".yml"
    templatePath := fun _ => "tpl"
    getStrategyConfigMap := fun _ => none
    baseStrategyConfigMap := strategySelModel
    parseDefaultText := fun _ => ""
    inventoryPricePrompt := fun _ fr => some fr
    statusCheckOutcome := some true }

/-- State for the C10 witness: `conf/a.yml` already exists. -/
def stW : St := stOf frW ["conf/a.yml"]

/-- State for the C4 witness: `conf/strategy_1.yml` exists and the
operator submits `strategy_1.yml`, then `strategy_2.yml`. -/
def stW4 : St :=
  stOf (frIn [.line "strategy_1.yml", .line "strategy_2.yml"]) ["conf/strategy_1.yml"]

/-- Final state of the C4 witness run. -/
def stW4' : St :=
  stOf ⟨[], false, ["strategy_1.yml file already exists, please enter a new name."],
        "s.yml", "", false, 0⟩ ["conf/strategy_1.yml"]

/-! ## Claim C10 -/

/-- Claim C10: for a non-None `file_name` argument whose formatted name
already exists in the configuration directory, the public `create` entry
point only notifies the operator that the file exists and returns: the
final state is the initial state with exactly that one notification
appended — no session state changes, no input is consumed, no session is
started. -/
theorem create_existing_file_rejected (fuel : Nat) (env : Env) (n : String) (st : St)
    (h : st.files.contains (pathJoin env.confPath (env.format n)) = true) :
    create fuel env (some n) st =
      .ok () (st.notify (env.format n ++ " already exists.")) := by
  have h' : pathJoin env.confPath (env.format n) ∈ st.files := by simpa using h
  simp [create, h']

/-- Witness for C10 at a concrete input: config dir holds `conf/a.yml` and
the operator runs `create a.yml`. -/
theorem create_existing_file_rejected_witness :
    create 1 envW (some "a.yml") stW =
      .ok () (stW.notify ("a.yml" ++ " already exists.")) :=
  create_existing_file_rejected 1 envW "a.yml" stW (by decide)

/-! ## Claim C4 -/

/-- Claim C4: a successful result of `prompt_new_file_name` is never the
empty name and never names an existing file; the files on disk are
untouched, and exactly one notification was issued per failed attempt
(each attempt consumes one input event; all but the last fail). -/
theorem prompt_new_file_name_fresh (fuel : Nat) (env : Env) (strategy : String)
    (st : St) (fn : String) (st' : St)
    (h : prompt_new_file_name fuel env strategy st = .ok fn st') :
    fn ≠ "" ∧ st'.files.contains (pathJoin env.confPath fn) = false ∧
    st'.files = st.files ∧
    st'.front.notifs.length + st'.front.inputs.length + 1 =
      st.front.notifs.length + st.front.inputs.length := by
  induction fuel generalizing st fn st' with
  | zero =>
    rw [prompt_new_file_name] at h
    rcases hi : st.front.inputs with _ | ⟨e, rest⟩
    · simp [FrontSt.readInput, St.setText, hi] at h
    · cases e <;> simp only [FrontSt.readInput, St.setText, hi] at h <;>
        · split at h
          · simp at h
          · split at h
            · simp at h
            · rename_i hne hcont
              injection h with h1 h2
              subst h1
              subst h2
              refine ⟨hne, by simpa using hcont, rfl, ?_⟩
              simp [hi]
              omega
  | succ f ih =>
    rw [prompt_new_file_name] at h
    rcases hi : st.front.inputs with _ | ⟨e, rest⟩
    · simp [FrontSt.readInput, St.setText, hi] at h
    · cases e <;> simp only [FrontSt.readInput, St.setText, hi] at h <;>
        · split at h
          · obtain ⟨h1, h2, h3, h4⟩ := ih _ _ _ h
            refine ⟨h1, h2, by simpa [St.notify] using h3, ?_⟩
            simp [St.notify] at h4
            simp [hi]
            omega
          · split at h
            · obtain ⟨h1, h2, h3, h4⟩ := ih _ _ _ h
              refine ⟨h1, h2, by simpa [St.notify] using h3, ?_⟩
              simp [St.notify] at h4
              simp [hi]
              omega
            · rename_i hne hcont
              injection h with h1 h2
              subst h1
              subst h2
              refine ⟨hne, by simpa using hcont, rfl, ?_⟩
              simp [hi]
              omega

/-- Witness for C4: with `conf/strategy_1.yml` on disk, requesting
`strategy_1.yml` re-prompts (one notification) and only the fresh name
`strategy_2.yml` is returned. -/
theorem prompt_new_file_name_fresh_witness :
    prompt_new_file_name 2 envW "s" stW4 = .ok "strategy_2.yml" stW4' ∧
    ("strategy_2.yml" ≠ "" ∧
      stW4'.files.contains (pathJoin envW.confPath "strategy_2.yml") = false ∧
      stW4'.files = stW4.files ∧
      stW4'.front.notifs.length + stW4'.front.inputs.length + 1 =
        stW4.front.notifs.length + stW4.front.inputs.length) := by
  constructor
  · simp [prompt_new_file_name, envW, stW4, stW4', St.setText, St.notify,
      FrontSt.readInput, pathJoin, stOf, frIn, frW]
  · exact prompt_new_file_name_fresh 2 envW "s" stW4 "strategy_2.yml" stW4'
      (by simp [prompt_new_file_name, envW, stW4, stW4', St.setText, St.notify,
        FrontSt.readInput, pathJoin, stOf, frIn, frW])

/-! ## Claim C3 -/

theorem promptLoop_eq_filtered (fuel : Nat) (env : Env) (fields : List CField)
    (m : ClientModel) (st : St) :
    promptLoop fuel env fields m st =
      promptFiltered fuel env ((fields.filter promptRequired).map CField.name) m st := by
  induction fields generalizing m st with
  | nil => simp [promptLoop, promptFiltered]
  | cons f rest ih =>
    rcases hpr : promptRequired f with _ | _
    · rw [promptLoop]
      simp only [hpr, Bool.false_eq_true, if_false, List.filter_cons,
        cond_false]
      exact ih m st
    · rw [promptLoop]
      simp only [hpr, if_true, List.filter_cons, cond_true, List.map_cons]
      rw [promptFiltered]
      cases hres : promptPath fuel env m (splitPath f.name) none st with
      | ok m1 st1 =>
        by_cases hstop : st1.front.toStop = true
        · simp [hstop]
        · simp only [hstop, if_false]
          exact ih _ _
      | exn e1 st1 => rfl
      | blocked => rfl

/-! ## Retry behavior (claims C1 and C7) -/

theorem readInput_line (fs : FrontSt) (s : String) (tail : List InEvent)
    (h : fs.inputs = .line s :: tail) :
    fs.readInput = some (s, { fs with inputs := tail }) := by
  rw [FrontSt.readInput, h]

theorem readInput_cancel (fs : FrontSt) (tail : List InEvent)
    (h : fs.inputs = .cancel :: tail) :
    fs.readInput = some (fs.text, { fs with inputs := tail, toStop := true }) := by
  rw [FrontSt.readInput, h]

/-- Unfolding the leaf case of `promptPath` when a prompt is issued and an
input is produced. -/
theorem promptPath_leaf_read (fuel : Nat) (env : Env) (m : ClientModel)
    (c : String) (f : CField) (p : String) (cd : ClientData) (st : St)
    (s : String) (fr : FrontSt)
    (hget : m.getField c = some f)
    (hpt : f.promptText = some p)
    (hcd : f.clientData = some cd)
    (hread : st.front.readInput = some (s, fr)) :
    promptPath fuel env m [c] none st =
      promptLeafCont fuel env m c (some s) { st with front := fr } := by
  rw [promptPath.eq_def]
  simp [hget, hpt, hcd, hread]

/-- Unfolding `promptLeafCont` on a validation failure: notify and retry
the same field with no preset. -/
theorem promptLeafCont_err (fuel : Nat) (env : Env) (m : ClientModel)
    (c : String) (f : CField) (s msg : String) (st : St)
    (hstop : st.front.toStop = false)
    (hget : m.getField c = some f)
    (hset : f.setv s = .err msg) :
    promptLeafCont (fuel + 1) env m c (some s) st =
      promptPath fuel env m (splitPath c) none (st.notify msg) := by
  rw [promptLeafCont.eq_def]
  simp [hstop, hget, hset]

/-- Unfolding `promptLeafCont` on a successful scalar assignment. -/
theorem promptLeafCont_ok_scalar (fuel : Nat) (env : Env) (m : ClientModel)
    (c : String) (f : CField) (s : String) (w : Option String) (st : St)
    (hstop : st.front.toStop = false)
    (hget : m.getField c = some f)
    (hset : f.setv s = .okv (.scalar w)) :
    promptLeafCont fuel env m c (some s) st =
      .ok (m.setFieldValue c (.scalar w)) st := by
  rw [promptLeafCont.eq_def]
  simp [hstop, hget, hset]

/-- Unfolding `promptLeafCont` on a successful assignment that produced a
nested model: the engine recurses into `prompt_for_model_config` on the
new value and writes the prompted sub-model back before returning. -/
theorem promptLeafCont_ok_model (fuel : Nat) (env : Env) (m : ClientModel)
    (c : String) (f : CField) (s : String) (sub : ClientModel) (st : St)
    (hstop : st.front.toStop = false)
    (hget : m.getField c = some f)
    (hset : f.setv s = .okv (.model sub)) :
    promptLeafCont (fuel + 1) env m c (some s) st =
      (match prompt_for_model_config fuel env sub st with
       | .ok sub' st' =>
         .ok (((m.setFieldValue c (.model sub)).setFieldValue c (.model sub'))) st'
       | .exn e st' => .exn e st'
       | .blocked => .blocked) := by
  rw [promptLeafCont.eq_def]
  simp [hstop, hget, hset]

/-- After any number of validation failures, the structured single-field
routine is back at the same field with the next input in hand: running
`promptPath` on a stream of `bads.length` invalid inputs followed by
`good` equals running the post-input continuation directly on `good`,
with one error notification recorded per invalid input and the model
untouched. -/
theorem promptPath_retry (env : Env) (m : ClientModel) (c : String) (f : CField)
    (p : String) (cd : ClientData) (errf : String → String)
    (bads : List String) (good : String) (rest : List InEvent)
    (hsplit : splitPath c = [c])
    (hget : m.getField c = some f)
    (hpt : f.promptText = some p)
    (hcd : f.clientData = some cd)
    (hbad : ∀ b ∈ bads, f.setv b = .err (errf b)) :
    ∀ (fuel : Nat) (st : St), st.front.toStop = false →
      st.front.inputs = bads.map InEvent.line ++ InEvent.line good :: rest →
      promptPath (bads.length + (fuel + 1)) env m [c] none st =
        promptLeafCont (fuel + 1) env m c (some good)
          { st with front :=
              { st.front with
                  inputs := rest,
                  notifs := st.front.notifs ++ bads.map errf } } := by
  induction bads with
  | nil =>
    intro fuel st hstop hins
    simp only [List.map_nil, List.nil_append] at hins
    simp only [List.length_nil, Nat.zero_add]
    rw [promptPath_leaf_read (fuel + 1) env m c f p cd st good _ hget hpt hcd
      (readInput_line st.front good rest hins)]
    simp
  | cons b bs ih =>
    intro fuel st hstop hins
    have hF : (b :: bs).length + (fuel + 1) = (bs.length + (fuel + 1)) + 1 := by
      simp only [List.length_cons]
      omega
    rw [hF]
    have h1 := promptPath_leaf_read (bs.length + (fuel + 1) + 1) env m c f p cd st b
      ({ st.front with inputs := List.map InEvent.line bs ++ InEvent.line good :: rest })
      hget hpt hcd
      (readInput_line st.front b (List.map InEvent.line bs ++ InEvent.line good :: rest)
        (by simp [hins]))
    rw [h1]
    have h2 := promptLeafCont_err (bs.length + (fuel + 1)) env m c f b (errf b)
      ({ st with front :=
          { st.front with
              inputs := List.map InEvent.line bs ++ InEvent.line good :: rest } })
      (by simp [hstop]) hget (hbad b (by simp))
    rw [h2, hsplit]
    rw [ih (fun x hx => hbad x (by simp [hx])) fuel
      (({ st with front :=
          { st.front with
              inputs := List.map InEvent.line bs ++ InEvent.line good :: rest } } : St).notify
        (errf b))
      (by simp [St.notify, hstop]) (by simp [St.notify])]
    simp [St.notify]

/-- Claim C1, structured half: on a stream of invalid inputs followed by a
valid one whose validated value is a scalar, the field ends holding
exactly the validated value, the operator was notified exactly once per
invalid input (in order), the invalid inputs were each consumed after a
fresh re-prompt with no preset, and no value is committed before the
valid input arrives (the model is the unchanged `m` throughout the
retries). -/
theorem prompt_a_config_retry_until_valid (env : Env) (m : ClientModel)
    (c : String) (f : CField) (p : String) (cd : ClientData)
    (errf : String → String) (w : Option String)
    (bads : List String) (good : String) (rest : List InEvent)
    (fuel : Nat) (st : St)
    (hsplit : splitPath c = [c])
    (hget : m.getField c = some f)
    (hpt : f.promptText = some p)
    (hcd : f.clientData = some cd)
    (hstop : st.front.toStop = false)
    (hins : st.front.inputs = bads.map InEvent.line ++ InEvent.line good :: rest)
    (hbad : ∀ b ∈ bads, f.setv b = .err (errf b))
    (hgood : f.setv good = .okv (.scalar w)) :
    prompt_a_config (bads.length + (fuel + 1)) env m c none st =
      .ok (m.setFieldValue c (.scalar w))
        { st with front :=
            { st.front with
                inputs := rest,
                notifs := st.front.notifs ++ bads.map errf } } := by
  rw [prompt_a_config, hsplit,
    promptPath_retry env m c f p cd errf bads good rest hsplit hget hpt hcd hbad
      fuel st hstop hins]
  rw [promptLeafCont_ok_scalar (fuel + 1) env m c f good w _ (by simp [hstop]) hget hgood]

/-- Unfolding `prompt_a_config_legacy` on an ordinary key when a prompt
is issued and an input is produced (with the default prefilled). -/
theorem pacl_read (fuel : Nat) (env : Env) (cv : ConfigVar) (st : St)
    (s : String) (fr : FrontSt)
    (hkey : ¬ cv.key = "inventory_price")
    (hread : (st.setText (env.parseDefaultText cv)).front.readInput = some (s, fr)) :
    prompt_a_config_legacy fuel env cv none true st =
      legacyAfterInput fuel env cv s
        { st.setText (env.parseDefaultText cv) with front := fr } := by
  rw [prompt_a_config_legacy.eq_def]
  simp [hkey, hread]

theorem legacyAfterInput_err (fuel : Nat) (env : Env) (cv : ConfigVar)
    (s msg : String) (st : St)
    (hstop : st.front.toStop = false)
    (hval : cv.validate s = some msg) :
    legacyAfterInput (fuel + 1) env cv s st =
      prompt_a_config_legacy fuel env cv none true (st.notify msg) := by
  rw [legacyAfterInput.eq_def]
  simp [hstop, hval]

theorem legacyAfterInput_ok (fuel : Nat) (env : Env) (cv : ConfigVar)
    (s : String) (st : St)
    (hstop : st.front.toStop = false)
    (hval : cv.validate s = none) :
    legacyAfterInput fuel env cv s st = .ok { cv with value := cv.parse s } st := by
  rw [legacyAfterInput.eq_def]
  simp [hstop, hval]

/-- Claim C1, legacy half: identical retry discipline for
`prompt_a_config_legacy` on an ordinary (non inventory-price)
descriptor: the committed value is the parse of the first input that
validates, with one notification per failed attempt and no commit before
that. -/
theorem prompt_a_config_legacy_retry_until_valid (env : Env) (cv : ConfigVar)
    (errf : String → String) (bads : List String) (good : String)
    (rest : List InEvent)
    (hkey : cv.key ≠ "inventory_price")
    (hbad : ∀ b ∈ bads, cv.validate b = some (errf b))
    (hgood : cv.validate good = none) :
    ∀ (fuel : Nat) (st : St), st.front.toStop = false →
      st.front.inputs = bads.map InEvent.line ++ InEvent.line good :: rest →
      prompt_a_config_legacy (bads.length + fuel) env cv none true st =
        .ok { cv with value := cv.parse good }
          { st with front :=
              { st.front with
                  inputs := rest,
                  text := env.parseDefaultText cv,
                  notifs := st.front.notifs ++ bads.map errf } } := by
  induction bads with
  | nil =>
    intro fuel st hstop hins
    simp only [List.map_nil, List.nil_append] at hins
    simp only [List.length_nil, Nat.zero_add]
    rw [pacl_read fuel env cv st good
      ({ (st.setText (env.parseDefaultText cv)).front with inputs := rest })
      hkey
      (readInput_line (st.setText (env.parseDefaultText cv)).front good rest
        (by simp [St.setText, hins]))]
    rw [legacyAfterInput_ok fuel env cv good _ (by simp [St.setText, hstop]) hgood]
    simp [St.setText]
  | cons b bs ih =>
    intro fuel st hstop hins
    have hF : (b :: bs).length + fuel = (bs.length + fuel) + 1 := by
      simp only [List.length_cons]
      omega
    rw [hF]
    rw [pacl_read ((bs.length + fuel) + 1) env cv st b
      ({ (st.setText (env.parseDefaultText cv)).front with
          inputs := List.map InEvent.line bs ++ InEvent.line good :: rest })
      hkey
      (readInput_line (st.setText (env.parseDefaultText cv)).front b
        (List.map InEvent.line bs ++ InEvent.line good :: rest)
        (by simp [St.setText, hins]))]
    rw [legacyAfterInput_err (bs.length + fuel) env cv b (errf b) _
      (by simp [St.setText, hstop]) (hbad b (by simp))]
    rw [ih (fun x hx => hbad x (by simp [hx])) fuel
      (({ st.setText (env.parseDefaultText cv) with front :=
          { (st.setText (env.parseDefaultText cv)).front with
              inputs := List.map InEvent.line bs ++ InEvent.line good :: rest } } : St).notify
        (errf b))
      (by simp [St.notify, St.setText, hstop]) (by simp [St.notify, St.setText])]
    simp [St.notify, St.setText]

/-! ## Frame lemmas: the prompting routines only touch the front end -/

@[simp] theorem core_changePrompt (st : St) (s : String) :
    (st.changePrompt s).core = st.core := rfl

theorem coreEq_match_writeback {st : St} (r : Res ClientModel)
    (g : ClientModel → ClientModel) (h : r.coreEq st) :
    (match r with
     | .ok sub' st' => Res.ok (g sub') st'
     | .exn e st' => Res.exn e st'
     | .blocked => Res.blocked).coreEq st := by
  cases r
  · simpa [Res.coreEq] using h
  · simpa [Res.coreEq] using h
  · trivial

/-- The structured engine touches only the front end: every non-blocked
outcome of `promptLeafCont`, `promptPath`, `promptLoop` and
`prompt_for_model_config` keeps files, events, exchanges, the
placeholder flag and the four session attributes unchanged. -/
theorem structured_core (fuel : Nat) :
    (∀ env m c iv st, Res.coreEq (promptLeafCont fuel env m c iv st) st) ∧
    (∀ env m path iv st, Res.coreEq (promptPath fuel env m path iv st) st) ∧
    (∀ env fields m st, Res.coreEq (promptLoop fuel env fields m st) st) ∧
    (∀ env m st, Res.coreEq (prompt_for_model_config fuel env m st) st) := by
  induction fuel using Nat.strong_induction_on with
  | _ fuel IH =>
    have hleaf : ∀ env m c iv st, Res.coreEq (promptLeafCont fuel env m c iv st) st := by
      intro env m c iv st
      rw [promptLeafCont.eq_def]
      cases hts : st.front.toStop with
      | true => simp [Res.coreEq]
      | false =>
        cases iv with
        | none => simp [Res.coreEq]
        | some s =>
          dsimp only
          cases hg : m.getField c with
          | none => simp [Res.coreEq]
          | some f =>
            dsimp only
            cases hset : f.setv s with
            | err msg =>
              dsimp only
              cases fuel with
              | zero => simp [Res.coreEq]
              | succ f' =>
                dsimp only
                exact Res.coreEq_trans
                  ((IH f' (by omega)).2.1 env m (splitPath c) none (st.notify msg))
                  (core_notify st msg)
            | okv v =>
              dsimp only
              cases v with
              | scalar w => simp [Res.coreEq]
              | model sub =>
                cases fuel with
                | zero => simp [Res.coreEq]
                | succ f' =>
                  dsimp only
                  exact coreEq_match_writeback _ _ ((IH f' (by omega)).2.2.2 env sub st)
    have hpath : ∀ path env m iv st, Res.coreEq (promptPath fuel env m path iv st) st := by
      intro path
      induction path with
      | nil =>
        intro env m iv st
        rw [promptPath.eq_def]
        simp [Res.coreEq]
      | cons seg rest ihp =>
        intro env m iv st
        rw [promptPath.eq_def]
        cases rest with
        | nil =>
          dsimp only
          cases iv with
          | some s => exact hleaf env m seg (some s) st
          | none =>
            dsimp only
            cases hg : m.getField seg with
            | none => simp [Res.coreEq]
            | some f =>
              dsimp only
              cases hpt : f.promptText with
              | none => exact hleaf env m seg none st
              | some p =>
                dsimp only
                cases hcd : f.clientData with
                | none => simp [Res.coreEq]
                | some cd =>
                  dsimp only
                  cases hread : st.front.readInput with
                  | none => simp [Res.coreEq]
                  | some pr =>
                    obtain ⟨s, fr⟩ := pr
                    dsimp only
                    exact Res.coreEq_trans (hleaf env m seg (some s) _)
                      (core_withFront st fr)
        | cons s2 r2 =>
          dsimp only
          cases hg : m.getField seg with
          | none => simp [Res.coreEq]
          | some f =>
            dsimp only
            cases hv : f.value with
            | scalar w => simp [Res.coreEq]
            | model sub =>
              dsimp only
              exact coreEq_match_writeback _ _ (ihp env sub iv st)
    have hloop : ∀ fields env m st, Res.coreEq (promptLoop fuel env fields m st) st := by
      intro fields
      induction fields with
      | nil =>
        intro env m st
        rw [promptLoop.eq_def]
        simp [Res.coreEq]
      | cons f rest ihl =>
        intro env m st
        rw [promptLoop.eq_def]
        dsimp only
        by_cases hpr : promptRequired f = true
        · simp only [hpr, if_true]
          cases hres : promptPath fuel env m (splitPath f.name) none st with
          | ok m1 st1 =>
            have h1 : st1.core = st.core := by
              have h2 := hpath (splitPath f.name) env m none st
              rw [hres] at h2
              exact h2
            by_cases hstop : st1.front.toStop = true
            · simp [hstop, Res.coreEq, h1]
            · simp only [hstop, if_false]
              exact Res.coreEq_trans (ihl env m1 st1) h1
          | exn e st1 =>
            have h2 := hpath (splitPath f.name) env m none st
            rw [hres] at h2
            simpa [Res.coreEq] using h2
          | blocked => simp [Res.coreEq]
        · simp only [hpr, if_false]
          exact ihl env m st
    refine ⟨hleaf, fun env m path iv st => hpath path env m iv st, ?_, ?_⟩
    · exact fun env fields m st => hloop fields env m st
    · intro env m st
      rw [prompt_for_model_config.eq_def]
      exact hloop m.fieldList env m st

/-- The legacy single-field routine touches only the front end. -/
theorem legacy_core (fuel : Nat) :
    (∀ env cv s st, Res.coreEq (legacyAfterInput fuel env cv s st) st) ∧
    (∀ env cv iv ad st, Res.coreEq (prompt_a_config_legacy fuel env cv iv ad st) st) := by
  induction fuel using Nat.strong_induction_on with
  | _ fuel IH =>
    have hai : ∀ env cv s st, Res.coreEq (legacyAfterInput fuel env cv s st) st := by
      intro env cv s st
      rw [legacyAfterInput.eq_def]
      by_cases hts : st.front.toStop = true
      · simp [hts, Res.coreEq]
      · simp only [hts, if_false]
        cases hval : cv.validate s with
        | none => simp [Res.coreEq]
        | some msg =>
          cases fuel with
          | zero => simp [Res.coreEq]
          | succ f' =>
            dsimp only
            exact Res.coreEq_trans ((IH f' (by omega)).2 env cv none true (st.notify msg))
              (core_notify st msg)
    refine ⟨hai, ?_⟩
    intro env cv iv ad st
    rw [prompt_a_config_legacy.eq_def]
    by_cases hkey : cv.key = "inventory_price"
    · simp only [hkey, if_true]
      rw [inventoryPriceBranch]
      cases env.inventoryPricePrompt iv st.front <;> simp [Res.coreEq]
    · simp only [hkey, if_false]
      cases iv with
      | some s => exact hai env cv s st
      | none =>
        dsimp only
        cases hread : (if ad then st.setText (env.parseDefaultText cv) else st).front.readInput with
        | none => simp [Res.coreEq]
        | some pr =>
          obtain ⟨s, fr⟩ := pr
          dsimp only
          refine Res.coreEq_trans (hai env cv s _) ?_
          by_cases had : ad = true <;> simp [had, St.setText]

/-- The legacy prompting pass touches only the front end. -/
theorem legacyPass2_core (fuel : Nat) (env : Env) :
    ∀ (l : LMap) (st : St), Res.coreEq (legacyPass2 fuel env l st) st := by
  intro l
  induction l with
  | nil =>
    intro st
    rw [legacyPass2]
    simp [Res.coreEq]
  | cons p rest ihl =>
    intro st
    obtain ⟨k, cv⟩ := p
    rw [legacyPass2]
    by_cases hpr : (cv.prompt_on_new && cv.required) = true
    · rw [if_pos hpr]
      by_cases hts : st.front.toStop = true
      · rw [if_pos hts]
        simp [Res.coreEq]
      · rw [if_neg hts]
        cases hres : prompt_a_config_legacy fuel env cv none true st with
        | ok cv1 st1 =>
          have h1 : st1.core = st.core := by
            have h2 := (legacy_core fuel).2 env cv none true st
            rw [hres] at h2
            exact h2
          dsimp only
          cases hrest : legacyPass2 fuel env rest st1 with
          | ok rest1 st2 =>
            have h3 := ihl st1
            rw [hrest] at h3
            simp only [Res.coreEq] at h3 ⊢
            exact h3.trans h1
          | exn e st2 =>
            have h3 := ihl st1
            rw [hrest] at h3
            simp only [Res.coreEq] at h3 ⊢
            exact h3.trans h1
          | blocked => simp [Res.coreEq]
        | exn e st1 =>
          have h2 := (legacy_core fuel).2 env cv none true st
          rw [hres] at h2
          simpa [Res.coreEq] using h2
        | blocked => simp [Res.coreEq]
    · rw [if_neg hpr]
      dsimp only
      cases hrest : legacyPass2 fuel env rest st with
      | ok rest1 st2 =>
        have h3 := ihl st
        rw [hrest] at h3
        simpa [Res.coreEq] using h3
      | exn e st2 =>
        have h3 := ihl st
        rw [hrest] at h3
        simpa [Res.coreEq] using h3
      | blocked => simp [Res.coreEq]

/-- File-name resolution touches only the front end. -/
theorem prompt_new_file_name_core (fuel : Nat) (env : Env) (strategy : String) :
    ∀ st : St, Res.coreEq (prompt_new_file_name fuel env strategy st) st := by
  induction fuel with
  | zero =>
    intro st
    rw [prompt_new_file_name]
    cases hread : (st.setText (env.defaultStrategyFilePath strategy)).front.readInput with
    | none => simp [Res.coreEq]
    | some pr =>
      obtain ⟨s, fr⟩ := pr
      dsimp only
      split
      · simp [Res.coreEq]
      · split
        · simp [Res.coreEq]
        · simp [Res.coreEq, St.setText]
  | succ f ih =>
    intro st
    rw [prompt_new_file_name]
    cases hread : (st.setText (env.defaultStrategyFilePath strategy)).front.readInput with
    | none => simp [Res.coreEq]
    | some pr =>
      obtain ⟨s, fr⟩ := pr
      dsimp only
      split
      · exact Res.coreEq_trans (ih _) (by simp [St.notify, St.setText])
      · split
        · exact Res.coreEq_trans (ih _) (by simp [St.notify, St.setText])
        · simp [Res.coreEq, St.setText]

/-! ## Rollback machinery (claim C2) -/

/-- The legacy prompting pass preserves the key list of the map, in
order. -/
theorem legacyPass2_keys (fuel : Nat) (env : Env) :
    ∀ (l : LMap) (st : St) (l' : LMap) (st' : St),
      legacyPass2 fuel env l st = .ok l' st' → l'.map Prod.fst = l.map Prod.fst := by
  intro l
  induction l with
  | nil =>
    intro st l' st' h
    rw [legacyPass2] at h
    injection h with h1 h2
    rw [← h1]
  | cons p rest ih =>
    intro st l' st' h
    obtain ⟨k, cv⟩ := p
    rw [legacyPass2] at h
    by_cases hpr : (cv.prompt_on_new && cv.required) = true
    · rw [if_pos hpr] at h
      by_cases hts : st.front.toStop = true
      · rw [if_pos hts] at h
        injection h with h1 h2
        rw [← h1]
      · rw [if_neg hts] at h
        cases hres : prompt_a_config_legacy fuel env cv none true st with
        | ok cv1 st1 =>
          rw [hres] at h
          dsimp only at h
          cases hrest : legacyPass2 fuel env rest st1 with
          | ok rest1 st2 =>
            rw [hrest] at h
            injection h with h1 h2
            rw [← h1]
            simp only [List.map_cons]
            rw [ih st1 rest1 st2 hrest]
          | exn e st2 =>
            rw [hrest] at h
            exact absurd h (by simp)
          | blocked =>
            rw [hrest] at h
            exact absurd h (by simp)
        | exn e st1 =>
          rw [hres] at h
          exact absurd h (by simp)
        | blocked =>
          rw [hres] at h
          exact absurd h (by simp)
    · rw [if_neg hpr] at h
      dsimp only at h
      cases hrest : legacyPass2 fuel env rest st with
      | ok rest1 st2 =>
        rw [hrest] at h
        injection h with h1 h2
        rw [← h1]
        simp only [List.map_cons]
        rw [ih st rest1 st2 hrest]
      | exn e st2 =>
        rw [hrest] at h
        exact absurd h (by simp)
      | blocked =>
        rw [hrest] at h
        exact absurd h (by simp)

theorem legacyPass1_keys (m : LMap) :
    (legacyPass1 m).map Prod.fst = m.map Prod.fst := by
  simp [legacyPass1]

/-- In a map with distinct keys, looking up any entry's key finds exactly
that entry's descriptor. -/
theorem lookup_self (m0 : LMap) (hnd : (m0.map Prod.fst).Nodup) :
    ∀ p ∈ m0, m0.lookup p.1 = some p.2 := by
  induction m0 with
  | nil => simp
  | cons q rest ih =>
    intro p hp
    obtain ⟨k0, v0⟩ := q
    simp only [List.map_cons, List.nodup_cons] at hnd
    rcases List.mem_cons.1 hp with hp1 | hp2
    · subst hp1
      simp [List.lookup]
    · have hk : ¬ p.1 = k0 := by
        intro he
        exact hnd.1 (he ▸ List.mem_map_of_mem Prod.fst hp2)
      have hk' : (p.1 == k0) = false := beq_eq_false_iff_ne.2 hk
      rw [List.lookup, hk']
      exact ih hnd.2 p hp2

/-- Restoring from a backup whose key list matches and resolves every
entry reproduces the backup exactly. -/
theorem restore_eq (b : LMap) :
    ∀ (m2 m0 : LMap), m2.map Prod.fst = m0.map Prod.fst →
      (∀ p ∈ m0, b.lookup p.1 = some p.2) →
      restore_config_legacy m2 b = some m0 := by
  intro m2
  induction m2 with
  | nil =>
    intro m0 hk _
    cases m0 with
    | nil => rfl
    | cons q r => simp at hk
  | cons q r2 ih =>
    intro m0 hk hl
    obtain ⟨k, v⟩ := q
    cases m0 with
    | nil => simp at hk
    | cons q0 r0 =>
      obtain ⟨k0, v0⟩ := q0
      simp only [List.map_cons, List.cons.injEq] at hk
      obtain ⟨hk1, hk2⟩ := hk
      subst hk1
      rw [restore_config_legacy, hl (k, v0) (by simp),
        ih r0 hk2 (fun p hp => hl p (by simp [hp]))]

/-- Outcome of the readiness check: exactly one `readiness` event is
appended, whatever the probe's result. -/
theorem verify_status_events (env : Env) (st : St) (st' : St)
    (h : (verify_status env st).finalSt = some st') :
    st'.events = st.events ++ [Ev.readiness] := by
  rw [verify_status] at h
  cases ho : env.statusCheckOutcome with
  | none =>
    rw [ho] at h
    dsimp only [Res.finalSt] at h
    injection h with h1
    rw [← h1]
    rfl
  | some b =>
    rw [ho] at h
    cases b <;> dsimp only [Res.finalSt] at h <;>
      (injection h with h1; rw [← h1]; rfl)

theorem finalSt_wrap (r : Res Unit) (m2 : LMap) :
    ((match r with
      | .ok _ st => Res.ok m2 st
      | .exn e st => Res.exn e st
      | .blocked => Res.blocked) : Res LMap).finalSt = r.finalSt := by
  cases r <;> rfl

/-- The persistence tail of the legacy engine: the copy, the legacy save
and the readiness check each contribute their event, and nothing else
changes the log. -/
theorem finishLegacy_events (env : Env) (strategy fn : String) (m2 : LMap)
    (st : St) (st' : St)
    (h : (finishLegacy env strategy fn m2 st).finalSt = some st') :
    st'.events = (st.events ++
      [Ev.copiedTemplate (pathJoin env.confPath fn),
       Ev.savedYmlLegacy (pathJoin env.confPath fn)]) ++ [Ev.readiness] := by
  rw [finishLegacy, finalSt_wrap] at h
  have h2 := verify_status_events env _ _ h
  rw [h2]
  simp [St.changePrompt, St.addFile, St.logEvent, St.reloadCompleter, St.notify,
    St.setPlaceholder, St.setHideInput]

/-! ## Claim C2 -/

/-- Claim C2: if cancellation is signaled at any point during
`prompt_for_configuration_legacy` (after the deep-copy backup and any
number of field mutations), the run completes through one of the two
`stop_config`-with-rollback sites — exactly the completed runs whose
event log gained no legacy save — and the returned map equals the
pre-session map `m0` on every key, never a partial subset. -/
theorem legacy_cancel_restores_exactly (fuel : Nat) (env : Env)
    (fileName : Option String) (strategy : String) (m0 : LMap) (st : St)
    (m' : LMap) (st' : St)
    (hnd : (m0.map Prod.fst).Nodup)
    (hrun : prompt_for_configuration_legacy fuel env fileName strategy m0 st =
      .ok m' st')
    (hnosave : st'.events.countP (fun e => e.isSavedYmlLegacy) =
      st.events.countP (fun e => e.isSavedYmlLegacy)) :
    m' = m0 := by
  rw [prompt_for_configuration_legacy] at hrun
  cases hp2 : legacyPass2 fuel env (legacyPass1 m0) st with
  | exn e st1 =>
    rw [hp2] at hrun
    exact absurd hrun (by simp)
  | blocked =>
    rw [hp2] at hrun
    exact absurd hrun (by simp)
  | ok m2 st1 =>
    rw [hp2] at hrun
    dsimp only at hrun
    have hkeys : m2.map Prod.fst = m0.map Prod.fst := by
      rw [legacyPass2_keys fuel env (legacyPass1 m0) st m2 st1 hp2, legacyPass1_keys]
    have hrestore : restore_config_legacy m2 m0 = some m0 :=
      restore_eq m0 m2 m0 hkeys (lookup_self m0 hnd)
    have hev1 : st1.events = st.events := by
      have hc := legacyPass2_core fuel env (legacyPass1 m0) st
      rw [hp2] at hc
      simp only [Res.coreEq] at hc
      exact congrArg Core.events hc
    by_cases hts : st1.front.toStop = true
    · rw [if_pos hts, hrestore] at hrun
      injection hrun with h1 h2
      exact h1.symm
    · rw [if_neg hts] at hrun
      cases fileName with
      | none =>
        dsimp only at hrun
        cases hfn : prompt_new_file_name fuel env strategy st1 with
        | exn e st2 =>
          rw [hfn] at hrun
          exact absurd hrun (by simp)
        | blocked =>
          rw [hfn] at hrun
          exact absurd hrun (by simp)
        | ok fn st2 =>
          rw [hfn] at hrun
          dsimp only at hrun
          have hev2 : st2.events = st.events := by
            have hc := prompt_new_file_name_core fuel env strategy st1
            rw [hfn] at hc
            simp only [Res.coreEq] at hc
            exact (congrArg Core.events hc).trans hev1
          by_cases hts2 : st2.front.toStop = true
          · rw [if_pos hts2, hrestore] at hrun
            injection hrun with h1 h2
            exact h1.symm
          · rw [if_neg hts2] at hrun
            exfalso
            have hev3 := finishLegacy_events env strategy fn m2 st2 st'
              (by rw [hrun]; rfl)
            rw [hev2] at hev3
            rw [hev3] at hnosave
            simp [List.countP_append, Ev.isSavedYmlLegacy] at hnosave
      | some fn =>
        dsimp only at hrun
        exfalso
        have hev3 := finishLegacy_events env strategy fn m2 st1 st'
          (by rw [hrun]; rfl)
        rw [hev1] at hev3
        rw [hev3] at hnosave
        simp [List.countP_append, Ev.isSavedYmlLegacy] at hnosave

/-! ## Claim C1 -/

/-- Claim C1: for both single-field routines, every validation failure
notifies the operator with the validation error message exactly once and
re-prompts the same field with no preset, indefinitely, and no value is
committed until an input passes validation.  On a stream of invalid
inputs followed by a valid one, the final state holds exactly the
validated value with one notification per failed attempt, in order; the
model (resp. descriptor) passed along the retries is the unchanged
original, so no intermediate value is ever committed. -/
theorem single_field_retry_until_valid :
    (∀ (env : Env) (m : ClientModel) (c : String) (f : CField) (p : String)
        (cd : ClientData) (errf : String → String) (w : Option String)
        (bads : List String) (good : String) (rest : List InEvent)
        (fuel : Nat) (st : St),
      splitPath c = [c] → m.getField c = some f → f.promptText = some p →
      f.clientData = some cd → st.front.toStop = false →
      st.front.inputs = bads.map InEvent.line ++ InEvent.line good :: rest →
      (∀ b ∈ bads, f.setv b = .err (errf b)) →
      f.setv good = .okv (.scalar w) →
      prompt_a_config (bads.length + (fuel + 1)) env m c none st =
        .ok (m.setFieldValue c (.scalar w))
          { st with front :=
              { st.front with
                  inputs := rest,
                  notifs := st.front.notifs ++ bads.map errf } }) ∧
    (∀ (env : Env) (cv : ConfigVar) (errf : String → String)
        (bads : List String) (good : String) (rest : List InEvent)
        (fuel : Nat) (st : St),
      cv.key ≠ "inventory_price" →
      (∀ b ∈ bads, cv.validate b = some (errf b)) →
      cv.validate good = none →
      st.front.toStop = false →
      st.front.inputs = bads.map InEvent.line ++ InEvent.line good :: rest →
      prompt_a_config_legacy (bads.length + fuel) env cv none true st =
        .ok { cv with value := cv.parse good }
          { st with front :=
              { st.front with
                  inputs := rest,
                  text := env.parseDefaultText cv,
                  notifs := st.front.notifs ++ bads.map errf } }) := by
  constructor
  · intro env m c f p cd errf w bads good rest fuel st h1 h2 h3 h4 h5 h6 h7 h8
    exact prompt_a_config_retry_until_valid env m c f p cd errf w bads good rest
      fuel st h1 h2 h3 h4 h5 h6 h7 h8
  · intro env cv errf bads good rest fuel st h1 h2 h3 h4 h5
    exact prompt_a_config_legacy_retry_until_valid env cv errf bads good rest
      h1 h2 h3 fuel st h4 h5

/-- Fixtures for the C1 witness: a field and a legacy descriptor that
accept only `5.0`. -/
def errW (b : String) : String := "Invalid value " ++ b

def feeField : CField :=
  .mk "fee" true (some ⟨true, false⟩) (some "Fee?")
    (fun s => if s = "5.0" then .okv (.scalar (some s)) else .err (errW s))
    (.scalar none)

def mW : ClientModel := .mk [feeField]

def stC1 : St := stOf (frIn [.line "abc", .line "-1", .line "x", .line "5.0"]) []

def cvW : ConfigVar :=
  { key := "fee", value := none, default := some "1", required := true,
    prompt_on_new := true, is_secure := false, prompt := "Fee?",
    validate := fun s => if s = "5.0" then none else some (errW s),
    parse := fun s => some s }

/-- Witness for C1: three invalid inputs (`abc`, `-1`, `x`) followed by
`5.0` leave the field holding `5.0` with exactly three error
notifications, in both engines. -/
theorem single_field_retry_until_valid_witness :
    (prompt_a_config (3 + (0 + 1)) envW mW "fee" none stC1 =
      .ok (mW.setFieldValue "fee" (.scalar (some "5.0")))
        { stC1 with front :=
            { stC1.front with
                inputs := [],
                notifs := stC1.front.notifs ++ ["abc", "-1", "x"].map errW } }) ∧
    (prompt_a_config_legacy (3 + 0) envW cvW none true stC1 =
      .ok { cvW with value := cvW.parse "5.0" }
        { stC1 with front :=
            { stC1.front with
                inputs := [],
                text := envW.parseDefaultText cvW,
                notifs := stC1.front.notifs ++ ["abc", "-1", "x"].map errW } }) := by
  constructor
  · exact single_field_retry_until_valid.1 envW mW "fee" feeField "Fee?"
      ⟨true, false⟩ errW (some "5.0") ["abc", "-1", "x"] "5.0" [] 0 stC1
      (by decide) rfl rfl rfl rfl rfl
      (by intro b hb
          simp only [List.mem_cons, List.not_mem_nil, or_false] at hb
          rcases hb with rfl | rfl | rfl <;> rfl)
      rfl
  · exact single_field_retry_until_valid.2 envW cvW errW ["abc", "-1", "x"] "5.0"
      [] 0 stC1 (by decide)
      (by intro b hb
          simp only [List.mem_cons, List.not_mem_nil, or_false] at hb
          rcases hb with rfl | rfl | rfl <;> rfl)
      rfl rfl rfl

/-- Fixtures for the C2 witness: a one-field map, a session cancelled at
its first prompt. -/
def mapW2 : LMap := [("fee", cvW)]

def stC2 : St := stOf (frIn [.cancel]) []

def stC2f : St := stOf frW []

/-- Witness for C2: cancelling at the first prompt of a one-field legacy
map leaves the map exactly equal to its pre-session snapshot. -/
theorem legacy_cancel_restores_exactly_witness :
    prompt_for_configuration_legacy 1 envW none "s" mapW2 stC2 = .ok mapW2 stC2f := by
  have hrun : prompt_for_configuration_legacy 1 envW none "s" mapW2 stC2 =
      .ok mapW2 stC2f := by
    simp [prompt_for_configuration_legacy, legacyPass1, legacyPass2,
      prompt_a_config_legacy, legacyAfterInput, restore_config_legacy,
      stop_config, St.setText, St.setToStop, FrontSt.readInput, List.lookup,
      envW, cvW, mapW2, stC2, stC2f, stOf, frIn, frW]
  have hm := legacy_cancel_restores_exactly 1 envW none "s" mapW2 stC2 mapW2 stC2f
    (by simp [mapW2]) hrun rfl
  exact hrun

/-! ## Claim C7 -/

/-- Claim C7: whenever an input is accepted by the validating assignment —
including when acceptance comes only after any number of
validation-failure retries — and the resulting field value is itself a
nested model, `prompt_a_config` recurses into `prompt_for_model_config`
on that nested model before returning (writing the prompted sub-model
back into the field), provided cancellation has not been signaled. -/
theorem prompt_a_config_nested_model_recursion (env : Env) (m : ClientModel)
    (c : String) (f : CField) (p : String) (cd : ClientData)
    (errf : String → String) (sub : ClientModel)
    (bads : List String) (good : String) (rest : List InEvent)
    (fuel : Nat) (st : St)
    (hsplit : splitPath c = [c])
    (hget : m.getField c = some f)
    (hpt : f.promptText = some p)
    (hcd : f.clientData = some cd)
    (hstop : st.front.toStop = false)
    (hins : st.front.inputs = bads.map InEvent.line ++ InEvent.line good :: rest)
    (hbad : ∀ b ∈ bads, f.setv b = .err (errf b))
    (hgood : f.setv good = .okv (.model sub)) :
    prompt_a_config (bads.length + (fuel + 1)) env m c none st =
      (match prompt_for_model_config fuel env sub
          { st with front :=
              { st.front with
                  inputs := rest,
                  notifs := st.front.notifs ++ bads.map errf } } with
       | .ok sub' st' =>
         .ok (((m.setFieldValue c (.model sub)).setFieldValue c (.model sub'))) st'
       | .exn e st' => .exn e st'
       | .blocked => .blocked) := by
  rw [prompt_a_config, hsplit,
    promptPath_retry env m c f p cd errf bads good rest hsplit hget hpt hcd hbad
      fuel st hstop hins]
  rw [promptLeafCont_ok_model fuel env m c f good sub _ (by simp [hstop]) hget hgood]

/-- Fixtures for the C7 witness: a field whose accepted value is a nested
model with one promptable sub-field. -/
def subFieldW : CField :=
  .mk "inner" true (some ⟨true, false⟩) (some "Inner?")
    (fun s => .okv (.scalar (some s))) (.scalar none)

def subW : ClientModel := .mk [subFieldW]

def outerFieldW : CField :=
  .mk "outer" true (some ⟨true, false⟩) (some "Outer?")
    (fun s => if s = "ok" then .okv (.model subW) else .err (errW s))
    (.scalar none)

def mW7 : ClientModel := .mk [outerFieldW]

def stC7 : St := stOf (frIn [.line "bad", .line "ok", .line "42"]) []

/-- Witness for C7: after one rejected input, the accepted input produces
the nested model `subW` and the engine recurses into
`prompt_for_model_config` on it before returning. -/
theorem prompt_a_config_nested_model_recursion_witness :
    prompt_a_config (1 + (1 + 1)) envW mW7 "outer" none stC7 =
      (match prompt_for_model_config 1 envW subW
          { stC7 with front :=
              { stC7.front with
                  inputs := [.line "42"],
                  notifs := stC7.front.notifs ++ ["bad"].map errW } } with
       | .ok sub' st' =>
         .ok (((mW7.setFieldValue "outer" (.model subW)).setFieldValue "outer"
           (.model sub'))) st'
       | .exn e st' => .exn e st'
       | .blocked => .blocked) :=
  prompt_a_config_nested_model_recursion envW mW7 "outer" outerFieldW "Outer?"
    ⟨true, false⟩ errW subW ["bad"] "ok" [.line "42"] 1 stC7
    (by decide) rfl rfl rfl rfl rfl
    (by intro b hb
        simp only [List.mem_cons, List.not_mem_nil, or_false] at hb
        rcases hb with rfl
        rfl)
    rfl

/-! ## Claim C9 -/

theorem finalSt_events_of_coreEq {α : Type} (r : Res α) (st st' : St)
    (hc : r.coreEq st) (h : r.finalSt = some st') : st'.events = st.events := by
  cases r with
  | ok a s =>
    simp only [Res.finalSt] at h
    injection h with h1
    subst h1
    exact congrArg Core.events hc
  | exn e s =>
    simp only [Res.finalSt] at h
    injection h with h1
    subst h1
    exact congrArg Core.events hc
  | blocked => simp [Res.finalSt] at h

/-- Strategy selection touches only the front end. -/
theorem get_strategy_name_core (fuel : Nat) (env : Env) (st : St) :
    Res.coreEq (get_strategy_name fuel env st) st := by
  rw [get_strategy_name]
  cases hres : prompt_for_model_config fuel env env.baseStrategyConfigMap st with
  | ok m1 st1 =>
    have hc := (structured_core fuel).2.2.2 env env.baseStrategyConfigMap st
    rw [hres] at hc
    simp only [Res.coreEq] at hc
    dsimp only
    by_cases hts : st1.front.toStop = true
    · simp [hts, Res.coreEq, stop_config, St.setToStop, hc]
    · simp [hts, Res.coreEq, hc]
  | exn e st1 =>
    have hc := (structured_core fuel).2.2.2 env env.baseStrategyConfigMap st
    rw [hres] at hc
    simpa [Res.coreEq] using hc
  | blocked => simp [Res.coreEq]

/-- Any completed run of the legacy engine performs no structured save and
at most one legacy save. -/
theorem legacy_saves_count (fuel : Nat) (env : Env) (fileName : Option String)
    (strategy : String) (l : LMap) (st : St) (st' : St)
    (h : (prompt_for_configuration_legacy fuel env fileName strategy l st).finalSt =
      some st') :
    st'.events.countP (fun e => e.isSavedYml) =
      st.events.countP (fun e => e.isSavedYml) ∧
    st'.events.countP (fun e => e.isSavedYmlLegacy) ≤
      st.events.countP (fun e => e.isSavedYmlLegacy) + 1 := by
  rw [prompt_for_configuration_legacy] at h
  cases hp2 : legacyPass2 fuel env (legacyPass1 l) st with
  | exn e st1 =>
    rw [hp2] at h
    have hev : st1.events = st.events := by
      have hc := legacyPass2_core fuel env (legacyPass1 l) st
      rw [hp2] at hc
      simpa [Res.coreEq] using congrArg Core.events hc
    simp only [Res.finalSt] at h
    injection h with h1
    subst h1
    simp [hev]
  | blocked =>
    rw [hp2] at h
    simp [Res.finalSt] at h
  | ok m2 st1 =>
    rw [hp2] at h
    dsimp only at h
    have hev1 : st1.events = st.events := by
      have hc := legacyPass2_core fuel env (legacyPass1 l) st
      rw [hp2] at hc
      simpa [Res.coreEq] using congrArg Core.events hc
    by_cases hts : st1.front.toStop = true
    · rw [if_pos hts] at h
      cases hres : restore_config_legacy m2 l with
      | some m3 =>
        rw [hres] at h
        simp only [Res.finalSt] at h
        injection h with h1
        subst h1
        simp [stop_config, St.setToStop, hev1]
      | none =>
        rw [hres] at h
        simp only [Res.finalSt] at h
        injection h with h1
        subst h1
        simp [hev1]
    · rw [if_neg hts] at h
      cases fileName with
      | none =>
        dsimp only at h
        cases hfn : prompt_new_file_name fuel env strategy st1 with
        | exn e st2 =>
          rw [hfn] at h
          have hev2 : st2.events = st1.events := by
            have hc := prompt_new_file_name_core fuel env strategy st1
            rw [hfn] at hc
            simpa [Res.coreEq] using congrArg Core.events hc
          simp only [Res.finalSt] at h
          injection h with h1
          subst h1
          simp [hev2, hev1]
        | blocked =>
          rw [hfn] at h
          simp [Res.finalSt] at h
        | ok fn st2 =>
          rw [hfn] at h
          dsimp only at h
          have hev2 : st2.events = st.events := by
            have hc := prompt_new_file_name_core fuel env strategy st1
            rw [hfn] at hc
            simp only [Res.coreEq] at hc
            exact (congrArg Core.events hc).trans hev1
          by_cases hts2 : st2.front.toStop = true
          · rw [if_pos hts2] at h
            cases hres : restore_config_legacy m2 l with
            | some m3 =>
              rw [hres] at h
              simp only [Res.finalSt] at h
              injection h with h1
              subst h1
              simp [stop_config, St.setToStop, St.setText, hev2]
            | none =>
              rw [hres] at h
              simp only [Res.finalSt] at h
              injection h with h1
              subst h1
              simp [hev2]
          · rw [if_neg hts2] at h
            have hev3 := finishLegacy_events env strategy fn m2 st2 st' h
            rw [hev2] at hev3
            rw [hev3]
            constructor
            · simp [List.countP_append, Ev.isSavedYml]
            · simp [List.countP_append, Ev.isSavedYmlLegacy]
      | some fn =>
        dsimp only at h
        have hev3 := finishLegacy_events env strategy fn m2 st1 st' h
        rw [hev1] at hev3
        rw [hev3]
        constructor
        · simp [List.countP_append, Ev.isSavedYml]
        · simp [List.countP_append, Ev.isSavedYmlLegacy]

/-- Claim C9: for every session whose schema catalogue yields only legacy
flat maps (or nothing), the whole controller run performs no structured
save (`save_config_to_file` is never reached: the legacy branch forces
the abort flag so the controller stops first) and at most one legacy
save — the legacy engine's own persistence — so persistence happens at
most once and never twice. -/
theorem legacy_session_saves_once (fuel : Nat) (env : Env)
    (fileName : Option String) (st : St) (st' : St)
    (hcat : ∀ s (m : ClientModel), env.getStrategyConfigMap s ≠ some (.structured m))
    (h : (prompt_for_configuration fuel env fileName st).finalSt = some st') :
    st'.events.countP (fun e => e.isSavedYml) =
      st.events.countP (fun e => e.isSavedYml) ∧
    st'.events.countP (fun e => e.isSavedYmlLegacy) ≤
      st.events.countP (fun e => e.isSavedYmlLegacy) + 1 := by
  rw [prompt_for_configuration] at h
  cases hg : get_strategy_name fuel env
      (((st.clearInput.setPlaceholder true).setHideInput true)
        |> fun s => { s with requiredExchanges := [] }) with
  | exn e st2 =>
    rw [hg] at h
    have hev : st2.events = st.events := by
      have hc := get_strategy_name_core fuel env
        (((st.clearInput.setPlaceholder true).setHideInput true)
          |> fun s => { s with requiredExchanges := [] })
      rw [hg] at hc
      simpa [Res.coreEq, St.clearInput, St.setText, St.setPlaceholder,
        St.setHideInput] using congrArg Core.events hc
    simp only [Res.finalSt] at h
    injection h with h1
    subst h1
    simp [hev]
  | blocked =>
    rw [hg] at h
    simp [Res.finalSt] at h
  | ok strategy st2 =>
    rw [hg] at h
    dsimp only at h
    have hev2 : st2.events = st.events := by
      have hc := get_strategy_name_core fuel env
        (((st.clearInput.setPlaceholder true).setHideInput true)
          |> fun s => { s with requiredExchanges := [] })
      rw [hg] at hc
      simpa [Res.coreEq, St.clearInput, St.setText, St.setPlaceholder,
        St.setHideInput] using congrArg Core.events hc
    by_cases hts : st2.front.toStop = true
    · rw [if_pos hts] at h
      simp only [Res.finalSt] at h
      injection h with h1
      subst h1
      simp [stop_config, St.setToStop, hev2]
    · rw [if_neg hts] at h
      cases strategy with
      | none =>
        dsimp only at h
        simp only [Res.finalSt] at h
        injection h with h1
        subst h1
        simp [St.logEvent, hev2, List.countP_append, Ev.isSavedYml,
          Ev.isSavedYmlLegacy]
      | some sname =>
        dsimp only at h
        cases hcm : env.getStrategyConfigMap (some sname) with
        | none =>
          rw [hcm] at h
          dsimp only at h
          simp only [Res.finalSt] at h
          injection h with h1
          subst h1
          simp [stop_config, St.setToStop, St.logEvent, St.notify, hev2,
            List.countP_append, Ev.isSavedYml, Ev.isSavedYmlLegacy]
        | some sch =>
          rw [hcm] at h
          cases sch with
          | structured m => exact absurd hcm (hcat (some sname) m)
          | legacy l =>
            dsimp only at h
            cases hleg : prompt_for_configuration_legacy fuel env fileName sname l
                (((st2.logEvent (.schemaLookup (some sname))).notify
                  (docsMsg sname))) with
            | ok l1 st5 =>
              rw [hleg] at h
              simp only [Res.finalSt] at h
              injection h with h1
              subst h1
              have hcnt := legacy_saves_count fuel env fileName sname l _ st5
                (by rw [hleg]; rfl)
              simp only [St.logEvent, St.notify, hev2, List.countP_append] at hcnt
              constructor
              · simpa [stop_config, St.setToStop, Ev.isSavedYml] using hcnt.1
              · have h2 := hcnt.2
                simp [Ev.isSavedYmlLegacy] at h2 ⊢
                simpa [stop_config, St.setToStop] using h2
            | exn e st5 =>
              rw [hleg] at h
              simp only [Res.finalSt] at h
              injection h with h1
              subst h1
              have hcnt := legacy_saves_count fuel env fileName sname l _ st5
                (by rw [hleg]; rfl)
              simp only [St.logEvent, St.notify, hev2, List.countP_append] at hcnt
              constructor
              · simpa [Ev.isSavedYml] using hcnt.1
              · have h2 := hcnt.2
                simp [Ev.isSavedYmlLegacy] at h2 ⊢
                exact h2
            | blocked =>
              rw [hleg] at h
              simp [Res.finalSt] at h

/-- Fixtures for the C9 witness: a catalogue with only the legacy map. -/
def envW9 : Env :=
  { envW with getStrategyConfigMap :=
      fun o => if o = some "s" then some (.legacy mapW2) else none }

/-- Final state of the C9 witness session. -/
def stC9f : St :=
  ⟨⟨[], false, [docsMsg "s"], "", "", true, 0⟩, true, [],
   [Ev.schemaLookup (some "s")], [], none, none, none, none⟩

/-- Witness for C9: a cancelled legacy session performs no save at all. -/
theorem legacy_session_saves_once_witness :
    (prompt_for_configuration 2 envW9 none
      (stOf (frIn [.line "s", .cancel]) [])).finalSt = some stC9f ∧
    stC9f.events.countP (fun e => e.isSavedYml) = 0 ∧
    stC9f.events.countP (fun e => e.isSavedYmlLegacy) ≤ 1 := by
  have hfin : (prompt_for_configuration 2 envW9 none
      (stOf (frIn [.line "s", .cancel]) [])).finalSt = some stC9f := by
    simp [prompt_for_configuration, get_strategy_name, prompt_for_model_config,
      promptLoop, promptPath, promptLeafCont, promptRequired, splitPath,
      splitPathAux, prompt_for_configuration_legacy, legacyPass1, legacyPass2,
      prompt_a_config_legacy, legacyAfterInput, restore_config_legacy,
      stop_config, St.clearInput, St.setText, St.setToStop,
      St.setPlaceholder, St.setHideInput, St.logEvent, St.notify,
      FrontSt.readInput, List.lookup, Res.finalSt, envW9, envW, mapW2, cvW,
      strategySelModel, stOf, frIn, stC9f, ClientModel.getField,
      ClientModel.fieldList, ClientModel.getStrAttr, CField.name,
      CField.clientData, CField.required, CField.promptText, CField.setv,
      CField.value, ClientModel.setFieldValue, setFirstField, CField.withValue]
  have hc := legacy_session_saves_once 2 envW9 none
    (stOf (frIn [.line "s", .cancel]) []) stC9f
    (by
      intro s m
      simp only [envW9]
      split <;> simp)
    hfin
  exact ⟨hfin, by simpa [stOf, frIn] using hc.1, by simpa [stOf, frIn] using hc.2⟩

/-! ## Claim C5 -/

/-- Claim C5 (amended): when the readiness check exceeds the configured
timeout, the operator is notified of the network failure, the
`strategy_file_name` and `strategy_name` bindings (and the
`strategy_config` attribute) are set to None, and the timeout is
re-raised — but the structured schema binding `strategy_config_map` is
left untouched, not unset. -/
theorem verify_status_timeout_clears_names_keeps_schema (env : Env) (st : St)
    (h : env.statusCheckOutcome = none) :
    verify_status env st = .exn .timeoutError
      { st with
          events := st.events ++ [Ev.readiness],
          front :=
            { st.front with
                notifs := st.front.notifs ++
                  ["\nA network error prevented the connection check to complete. See logs for more details."] },
          strategyFileName := none, strategyName := none,
          strategyConfig := none } := by
  rw [verify_status, h]
  rfl

/-- Witness for the amended C5: a concrete timed-out readiness check. -/
theorem verify_status_timeout_clears_names_keeps_schema_witness :
    verify_status { envW with statusCheckOutcome := none } (stOf frW []) =
      .exn .timeoutError
        { stOf frW [] with
            events := (stOf frW []).events ++ [Ev.readiness],
            front :=
              { (stOf frW []).front with
                  notifs := (stOf frW []).front.notifs ++
                    ["\nA network error prevented the connection check to complete. See logs for more details."] },
            strategyFileName := none, strategyName := none,
            strategyConfig := none } :=
  verify_status_timeout_clears_names_keeps_schema
    { envW with statusCheckOutcome := none } (stOf frW []) rfl

/-- Fixtures for the C5 counterexample: a structured session whose
readiness check times out. -/
def envC5 : Env :=
  { envW with
      getStrategyConfigMap :=
        fun o => if o = some "x" then some (.structured (schemaModelOf "x")) else none,
      statusCheckOutcome := none }

def stC5 : St := stOf (frIn [.line "x", .line "a.yml"]) []

/-- Final state of the C5 counterexample session. -/
def stC5f : St :=
  ⟨⟨[], false,
    [docsMsg "x",
     "\nA network error prevented the connection check to complete. See logs for more details."],
    "x.yml", ">>> ", false, 1⟩, false, ["conf/a.yml"],
   [Ev.schemaLookup (some "x"), Ev.savedYml "conf/a.yml", Ev.readiness], [],
   none, none, some (.structured (schemaModelOf "x")), none⟩

/-- Counterexample to C5 as stated: after the timeout the file-name and
strategy-name bindings are None, but the schema binding
`strategy_config_map` (set at line 77, just before `verify_status`) is
still bound — the cleanup clears the never-used `strategy_config`
attribute instead. -/
theorem verify_timeout_leaves_schema_bound_counterexample :
    prompt_for_configuration 3 envC5 none stC5 = .exn .timeoutError stC5f ∧
    stC5f.strategyFileName = none ∧ stC5f.strategyName = none ∧
    stC5f.strategyConfigMap = some (.structured (schemaModelOf "x")) := by
  refine ⟨?_, rfl, rfl, rfl⟩
  simp [prompt_for_configuration, get_strategy_name, prompt_for_model_config,
    promptLoop, promptPath, promptLeafCont, promptRequired, splitPath,
    splitPathAux, save_config_to_file, prompt_new_file_name, verify_status,
    stop_config, docsMsg, pathJoin, St.clearInput, St.setText, St.setToStop,
    St.setPlaceholder, St.setHideInput, St.logEvent, St.notify,
    St.changePrompt, St.addFile, St.reloadCompleter, FrontSt.readInput,
    Res.finalSt, envC5, envW, stC5, stC5f, stOf, frIn, frW, strategySelModel,
    schemaModelOf, ClientModel.getField, ClientModel.fieldList,
    ClientModel.getStrAttr, CField.name, CField.clientData, CField.required,
    CField.promptText, CField.setv, CField.value, ClientModel.setFieldValue,
    setFirstField, CField.withValue]

/-! ## Claim C6 -/

/-- Fixture for C6: the operator cancels during the strategy prompt. -/
def stC6 : St := stOf (frIn [.cancel]) []

/-- Final state of the C6 session: the schema lookup has been performed
(with strategy None) and the docs notification raised an error, leaving
the front end in placeholder/hidden-input mode. -/
def stC6f : St :=
  ⟨⟨[], false, [], "", "", true, 0⟩, true, [], [Ev.schemaLookup none], [],
   none, none, none, none⟩

/-- Claim C6 is right and the code is wrong: cancelling during strategy
selection should abort the session before any schema-specific work, but
`get_strategy_name` absorbs the cancellation itself (its `stop_config`
resets `to_stop_config`), so the controller's abort check never fires:
the schema lookup is performed with strategy None and the docs
notification then raises (`None.replace` — AttributeError), killing the
session with the front end stuck in placeholder/hidden-input mode. -/
theorem cancel_during_strategy_selection_still_does_schema_lookup :
    prompt_for_configuration 2 envW none stC6 = .exn .runtimeError stC6f ∧
    Ev.schemaLookup none ∈ stC6f.events ∧ stC6f.placeholderMode = true := by
  refine ⟨?_, by simp [stC6f], rfl⟩
  simp [prompt_for_configuration, get_strategy_name, prompt_for_model_config,
    promptLoop, promptPath, promptLeafCont, promptRequired, splitPath,
    splitPathAux, stop_config, St.clearInput, St.setText, St.setToStop,
    St.setPlaceholder, St.setHideInput, St.logEvent, St.notify,
    FrontSt.readInput, envW, stC6, stC6f, stOf, frIn, frW, strategySelModel,
    ClientModel.getField, ClientModel.fieldList, ClientModel.getStrAttr,
    CField.name, CField.clientData, CField.required, CField.promptText,
    CField.setv, CField.value, ClientModel.setFieldValue, setFirstField,
    CField.withValue]

/-! ## Claim C8 -/

theorem append_yml_ne_empty (s : String) : ¬ s ++ ".yml" = "" := by
  intro h
  have h2 : (s ++ ".yml").data = ([] : List Char) := by rw [h]
  rw [String.data_append] at h2
  have h3 := List.append_eq_nil.1 h2
  exact absurd h3.2 (by decide)

/-- Catalogue mapping the chosen strategy to a structured schema. -/
def envAm (s : String) : Env :=
  { envW with
      getStrategyConfigMap :=
        fun o => if o = some s then some (.structured (schemaModelOf s)) else none }

/-- Claim C8 (amended): a structured session cancelled at the file-name
prompt does not leave all three outputs unset: `save_config_to_file`
absorbs the cancellation and returns None, after which the controller
still binds the strategy name and the schema — only the file name is
left None — and no structured save is performed. -/
theorem filename_prompt_cancel_exposes_name_and_schema (s : String)
    (rest : List InEvent) :
    (match prompt_for_configuration 3 (envAm s) none
        (stOf (frIn ([.line s, .cancel] ++ rest)) []) with
     | .ok _ stF =>
       stF.strategyFileName = none ∧ stF.strategyName = some s ∧
       stF.strategyConfigMap = some (.structured (schemaModelOf s)) ∧
       stF.events.countP (fun e => e.isSavedYml) = 0
     | _ => False) := by
  simp [prompt_for_configuration, get_strategy_name, prompt_for_model_config,
    promptLoop, promptPath, promptLeafCont, promptRequired, splitPath,
    splitPathAux, save_config_to_file, prompt_new_file_name, verify_status,
    stop_config, docsMsg, pathJoin, append_yml_ne_empty, St.clearInput,
    St.setText, St.setToStop, St.setPlaceholder, St.setHideInput, St.logEvent,
    St.notify, St.changePrompt, St.addFile, St.reloadCompleter,
    FrontSt.readInput, envAm, envW, stOf, frIn, frW, strategySelModel,
    schemaModelOf, ClientModel.getField, ClientModel.fieldList,
    ClientModel.getStrAttr, CField.name, CField.clientData, CField.required,
    CField.promptText, CField.setv, CField.value, ClientModel.setFieldValue,
    setFirstField, CField.withValue, Ev.isSavedYml]

/-- Final state of the C8 counterexample session. -/
def stC8f : St :=
  ⟨⟨[], false, [docsMsg "x", "\nEnter \"start\" to start market making."],
    "", "", false, 1⟩, false, [],
   [Ev.schemaLookup (some "x"), Ev.readiness], [],
   none, some "x", some (.structured (schemaModelOf "x")), none⟩

/-- Counterexample to C8 as stated: cancelling at the structured path's
file-name prompt does not leave all three outputs unset — the session
completes with `strategy_name` and `strategy_config_map` bound (only
`strategy_file_name` is None). -/
theorem filename_prompt_cancel_counterexample :
    prompt_for_configuration 3 (envAm "x") none
        (stOf (frIn [.line "x", .cancel]) []) = .ok () stC8f ∧
    stC8f.strategyFileName = none ∧ stC8f.strategyName = some "x" ∧
    stC8f.strategyConfigMap ≠ none := by
  refine ⟨?_, rfl, rfl, by simp [stC8f]⟩
  simp [prompt_for_configuration, get_strategy_name, prompt_for_model_config,
    promptLoop, promptPath, promptLeafCont, promptRequired, splitPath,
    splitPathAux, save_config_to_file, prompt_new_file_name, verify_status,
    stop_config, docsMsg, pathJoin, St.clearInput, St.setText, St.setToStop,
    St.setPlaceholder, St.setHideInput, St.logEvent, St.notify,
    St.changePrompt, St.addFile, St.reloadCompleter, FrontSt.readInput,
    envAm, envW, stC8f, stOf, frIn, frW, strategySelModel, schemaModelOf,
    ClientModel.getField, ClientModel.fieldList, ClientModel.getStrAttr,
    CField.name, CField.clientData, CField.required, CField.promptText,
    CField.setv, CField.value, ClientModel.setFieldValue, setFirstField,
    CField.withValue]

/-! ## Claim C3 -/

/-- Claim C3: the structured engine visits exactly the fields that have
client data and are both required and prompt-on-new — in declaration
order, never prompting any other field — and stops at the first visit
that leaves the cancellation flag set: `prompt_for_model_config` equals
the reference loop `promptFiltered` run on `promptRequiredKeys`, which
by construction prompts exactly those keys in order and aborts the
iteration as soon as the flag is observed. -/
theorem prompt_for_model_config_visits_exactly_required (fuel : Nat) (env : Env)
    (m : ClientModel) (st : St) :
    prompt_for_model_config fuel env m st =
      promptFiltered fuel env (promptRequiredKeys m) m st := by
  rw [prompt_for_model_config, promptRequiredKeys]
  exact promptLoop_eq_filtered fuel env m.fieldList m st

end CreateCommand
